import Mathlib

/-!
Verification development for the stack_ai vector database service.

The embedding models the in-memory index subsystem:
pure functions from `app/infrastructure/indexing/linear_index.py`,
`app/infrastructure/indexing/ball_tree.py`,
`app/infrastructure/indexing/kd_tree.py`,
`app/infrastructure/indexing/build_index.py`, and the delete flows of
`app/api/routers/libraries.py` / `app/services/library_service.py`.

Modeling conventions:
* Python floats are modeled as real numbers; numpy float32 rounding is not
  modeled.
* Chunk identifiers are modeled as `String`.  `IndexBuilder.build_index`
  stringifies every UUID before handing it to an index (`str(chunk.id)`), so
  index identifiers are strings at build time, and the conversion
  `str(node.ids[i])` performed inside `BallTree._search_k` is then the
  identity.  At `add_vector` time the routers pass `uuid.UUID` objects; the
  `isinstance(chunk_id, uuid.UUID)` guards of LinearIndex/BallTree succeed at
  every call site and identifier equality is preserved by stringification, so
  one string type is used throughout.
* Python list emptiness tests (`if not vector`) are modeled with
  `List.isEmpty`; dictionary lookups with association lists.
-/

namespace StackAI

abbrev Id := String

/-- Python exception kinds that the modeled code can raise. -/
inductive PyErr where
  | keyError (key : String)
  | valueError
  | attributeError
  deriving DecidableEq, Repr

/-- HTTP outcome of a route, as produced by FastAPI: an unhandled Python
exception becomes a 500 server error. -/
inductive HttpOutcome where
  | ok
  | noContent
  | notFound
  | badRequest
  | serverError (e : PyErr)
  deriving DecidableEq, Repr

noncomputable section
open scoped Classical

/-- Squared Euclidean distance of two coordinate lists,
`np.sum((v - w) ** 2)`. -/
def sqDist (v w : List ℝ) : ℝ :=
  (List.zipWith (fun a b => (a - b) ^ 2) v w).sum

/-- Euclidean distance `np.linalg.norm(v - w)` of two coordinate lists. -/
def eucDist (v w : List ℝ) : ℝ := Real.sqrt (sqDist v w)

/-- Componentwise vector sum, used for `np.mean(points, axis=0)`. -/
def vadd (v w : List ℝ) : List ℝ := List.zipWith (· + ·) v w

/-- Sum of a list of vectors (`np.mean` numerator). -/
def vsum : List (List ℝ) → List ℝ
  | [] => []
  | p :: ps => ps.foldl vadd p

/-- Componentwise mean `np.mean(points, axis=0)` of a nonempty point list. -/
def mean (ps : List (List ℝ)) : List ℝ :=
  (vsum ps).map (fun x => x / (ps.length : ℝ))

/-- Python `max` over a nonempty list of reals (`0` on the empty list, the
value the ball-tree constructor uses when there are no points). -/
def listMax : List ℝ → ℝ
  | [] => 0
  | x :: xs => xs.foldl max x

/-- Radius assigned by `BallTreeNode.__init__`: the largest distance from a
point to the centroid, `0` when there are no points. -/
def radiusOf (ps : List (List ℝ)) (c : List ℝ) : ℝ :=
  listMax (ps.map (fun p => eucDist p c))

/-- State of `LinearIndex` (`linear_index.py`): parallel lists of vectors and
ids. -/
structure LinearIndex where
  vectors : List (List ℝ)
  ids : List Id

/-- `LinearIndex.add_vector`: skip empty vectors (the `isinstance` guards on
the vector being a list and the id being a UUID hold at every call site),
otherwise append to both parallel lists. -/
def LinearIndex.add_vector (s : LinearIndex) (vector : List ℝ) (chunk_id : Id) :
    LinearIndex :=
  if vector.isEmpty then s
  else { vectors := s.vectors ++ [vector], ids := s.ids ++ [chunk_id] }

/-- Model of `np.argsort`: the indices of `ds` sorted by value.  `np.argsort`
uses an unstable quicksort; the model uses a stable sort, which agrees with
numpy on every input considered in this development (in particular on
two-element lists of equal values, where numpy returns `[0, 1]`). -/
def argsort (ds : List ℝ) : List ℕ :=
  List.insertionSort (fun i j => ds.getD i 0 ≤ ds.getD j 0) (List.range ds.length)

/-- `LinearIndex.search`: empty result when the index is empty, the query is
empty, or the query length differs from the first indexed vector; otherwise
the `min k n` indices of smallest distance, in ascending distance order, with
their distances. -/
def LinearIndex.search (s : LinearIndex) (query : List ℝ) (k : ℕ) :
    List (Id × ℝ) :=
  if s.vectors.isEmpty then []
  else if query.isEmpty then []
  else if query.length ≠ s.vectors.headI.length then []
  else
    let distances := s.vectors.map (fun v => eucDist v query)
    let actual_k := min k distances.length
    ((argsort distances).take actual_k).map
      (fun i => (s.ids.getD i "", distances.getD i 0))

/-- Shape of a `BallTreeNode`.  In every state the source can reach, an
internal node (one produced by `_build` or by a leaf split in `_insert`) has
both children present and its `points`/`ids` lists cleared, and a leaf has no
children; the inductive therefore has exactly these two forms. -/
inductive BT where
  | leaf (points : List (List ℝ)) (ids : List Id) (centroid : List ℝ) (radius : ℝ)
  | node (left : BT) (right : BT) (centroid : List ℝ) (radius : ℝ)

def BT.centroid : BT → List ℝ
  | .leaf _ _ c _ => c
  | .node _ _ c _ => c

def BT.radius : BT → ℝ
  | .leaf _ _ _ r => r
  | .node _ _ _ r => r

/-- All points stored at or below a node (internal nodes store none of their
own). -/
def BT.points : BT → List (List ℝ)
  | .leaf ps _ _ _ => ps
  | .node l r _ _ => l.points ++ r.points

/-- All point/id entries stored at or below a node. -/
def BT.pairs : BT → List (List ℝ × Id)
  | .leaf ps ids _ _ => ps.zip ids
  | .node l r _ _ => l.pairs ++ r.pairs

/-- `BallTreeNode.__init__`: centroid is the mean of the points, radius the
largest distance from a point to that centroid. -/
def mkLeaf (ps : List (List ℝ)) (ids : List Id) : BT :=
  .leaf ps ids (mean ps) (radiusOf ps (mean ps))

/-- Iteration order of the double loop in `_split_node`: pairs `(i, j)` with
`i < j`, `i` outer and ascending, `j` inner and ascending. -/
def allPairs (n : ℕ) : List (ℕ × ℕ) :=
  (List.range n).flatMap (fun i =>
    ((List.range n).filter (fun j => decide (i < j))).map (fun j => (i, j)))

/-- The two mutually farthest points of `_split_node`: scan all pairs keeping
the first pair whose distance strictly exceeds the running maximum, which
starts at `-1`. -/
def farthestPair (ps : List (List ℝ)) : ℕ × ℕ :=
  ((allPairs ps.length).foldl
    (fun acc ij =>
      if acc.1 < eucDist (ps.getD ij.1 []) (ps.getD ij.2 []) then
        (eucDist (ps.getD ij.1 []) (ps.getD ij.2 []), ij)
      else acc)
    ((-1 : ℝ), (0, 0))).2

/-- `BallTree._split_node`: partition each point to the strictly closer of the
two farthest points (ties to the right); if either side comes out empty, fall
back to splitting at the median index.  Returns
(left points, left ids, right points, right ids). -/
def splitNode (ps : List (List ℝ)) (ids : List Id) :
    List (List ℝ) × List Id × List (List ℝ) × List Id :=
  let p1 := ps.getD (farthestPair ps).1 []
  let p2 := ps.getD (farthestPair ps).2 []
  let prs := ps.zip ids
  let leftPrs := prs.filter (fun pr => decide (eucDist pr.1 p1 < eucDist pr.1 p2))
  let rightPrs := prs.filter (fun pr => !decide (eucDist pr.1 p1 < eucDist pr.1 p2))
  if leftPrs.isEmpty || rightPrs.isEmpty then
    let mid := ps.length / 2
    (ps.take mid, ids.take mid, ps.drop mid, ids.drop mid)
  else
    (leftPrs.map Prod.fst, leftPrs.map Prod.snd,
     rightPrs.map Prod.fst, rightPrs.map Prod.snd)

lemma filter_length_sum {α : Type} (p : α → Bool) (l : List α) :
    (l.filter p).length + (l.filter (fun x => !p x)).length = l.length := by
  have h := (List.filter_append_perm p l).length_eq
  simpa using h

lemma splitNode_fst_length_lt (ps : List (List ℝ)) (ids : List Id)
    (h2 : 2 ≤ ps.length) : (splitNode ps ids).1.length < ps.length := by
  unfold splitNode
  dsimp only
  split
  · show (List.take (ps.length / 2) ps).length < ps.length
    have ht : (List.take (ps.length / 2) ps).length ≤ ps.length / 2 :=
      List.length_take_le _ _
    have h3 : ps.length / 2 < ps.length := Nat.div_lt_self (by omega) (by omega)
    omega
  · rename_i hne
    rw [Bool.or_eq_true, not_or] at hne
    obtain ⟨hl, hr⟩ := hne
    simp only [List.isEmpty_eq_true] at hl hr
    have hsum := filter_length_sum
      (fun pr : List ℝ × Id => decide (eucDist pr.1 (ps.getD (farthestPair ps).1 []) < eucDist pr.1 (ps.getD (farthestPair ps).2 [])))
      (ps.zip ids)
    have hzip : (ps.zip ids).length ≤ ps.length := by
      simp [List.length_zip]
    have hrpos : (List.filter (fun pr => !decide (eucDist pr.1 (ps.getD (farthestPair ps).1 []) < eucDist pr.1 (ps.getD (farthestPair ps).2 []))) (ps.zip ids)).length ≠ 0 := by
      simpa [List.length_eq_zero] using hr
    simp only [List.length_map]
    omega

lemma splitNode_rst_length_lt (ps : List (List ℝ)) (ids : List Id)
    (h2 : 2 ≤ ps.length) : (splitNode ps ids).2.2.1.length < ps.length := by
  unfold splitNode
  dsimp only
  split
  · show (List.drop (ps.length / 2) ps).length < ps.length
    have hd : (List.drop (ps.length / 2) ps).length = ps.length - ps.length / 2 :=
      List.length_drop _ _
    have hmid : 1 ≤ ps.length / 2 := by omega
    omega
  · rename_i hne
    rw [Bool.or_eq_true, not_or] at hne
    obtain ⟨hl, hr⟩ := hne
    simp only [List.isEmpty_eq_true] at hl hr
    have hsum := filter_length_sum
      (fun pr : List ℝ × Id => decide (eucDist pr.1 (ps.getD (farthestPair ps).1 []) < eucDist pr.1 (ps.getD (farthestPair ps).2 [])))
      (ps.zip ids)
    have hzip : (ps.zip ids).length ≤ ps.length := by
      simp [List.length_zip]
    have hlpos : (List.filter (fun pr => decide (eucDist pr.1 (ps.getD (farthestPair ps).1 []) < eucDist pr.1 (ps.getD (farthestPair ps).2 []))) (ps.zip ids)).length ≠ 0 := by
      simpa [List.length_eq_zero] using hl
    simp only [List.length_map]
    omega

/-- `BallTree._build`: `None` on no points; a leaf when the batch fits in
`leaf_size`; otherwise split and recurse, the parent keeping the centroid and
radius computed over all of its points.  With `leaf_size = 0` the source
recurses forever on a single point; the model returns a leaf in that
unreachable configuration (every theorem assumes `1 ≤ leaf_size`). -/
def buildT (lsz : ℕ) (ps : List (List ℝ)) (ids : List Id) : Option BT :=
  if ps.isEmpty then none
  else if hsmall : ps.length ≤ lsz ∨ ps.length ≤ 1 then some (mkLeaf ps ids)
  else
    have h2 : 2 ≤ ps.length := by
      rw [not_or] at hsmall
      omega
    match buildT lsz (splitNode ps ids).1 (splitNode ps ids).2.1,
          buildT lsz (splitNode ps ids).2.2.1 (splitNode ps ids).2.2.2 with
    | some l, some r => some (.node l r (mean ps) (radiusOf ps (mean ps)))
    | _, _ => some (mkLeaf ps ids)
termination_by ps.length
decreasing_by
  · exact splitNode_fst_length_lt ps ids h2
  · exact splitNode_rst_length_lt ps ids h2

/-- `BallTree._update_node_bounds`: a nonempty leaf recomputes exact centroid
and radius from its points; an internal node takes the midpoint of the child
centroids and a radius enclosing both child balls. -/
def updateBounds : BT → BT
  | .leaf ps ids c r =>
      if ps.isEmpty then .leaf ps ids c r else mkLeaf ps ids
  | .node l r _ _ =>
      let c := (vadd l.centroid r.centroid).map (fun x => x / 2)
      .node l r c
        (max (eucDist l.centroid c + l.radius) (eucDist r.centroid c + r.radius))

/-- `BallTree._insert`: descend to the leaf with the closer centroid, append
the point there, split the leaf when it exceeds `leaf_size`, and refresh the
bounds of every node on the way back up. -/
def insertT (lsz : ℕ) : BT → List ℝ → Id → BT
  | .leaf ps ids c r, point, id =>
      let ps' := ps ++ [point]
      let ids' := ids ++ [id]
      if lsz < ps'.length then
        updateBounds (.node (mkLeaf (splitNode ps' ids').1 (splitNode ps' ids').2.1)
          (mkLeaf (splitNode ps' ids').2.2.1 (splitNode ps' ids').2.2.2) c r)
      else
        updateBounds (.leaf ps' ids' c r)
  | .node l r c rad, point, id =>
      if eucDist point l.centroid < eucDist point r.centroid then
        updateBounds (.node (insertT lsz l point id) r c rad)
      else
        updateBounds (.node l (insertT lsz r point id) c rad)

/-- State of `BallTree` (`ball_tree.py`): the flat vector/id lists kept for
tracking, the leaf size (default 20), and the tree root. -/
structure BallTree where
  leaf_size : ℕ
  vectors : List (List ℝ)
  ids : List Id
  root : Option BT

/-- `BallTree.__init__`: store the batch and build the tree from it. -/
def BallTree.init (vectors : List (List ℝ)) (ids : List Id)
    (leaf_size : ℕ := 20) : BallTree :=
  ⟨leaf_size, vectors, ids, buildT leaf_size vectors ids⟩

/-- `BallTree.add_vector`: skip empty vectors (the `isinstance` guards hold at
every call site), append to the flat lists, then build a root or insert. -/
def BallTree.add_vector (s : BallTree) (vector : List ℝ) (chunk_id : Id) :
    BallTree :=
  if vector.isEmpty then s
  else
    match s.root with
    | none =>
        { s with vectors := s.vectors ++ [vector], ids := s.ids ++ [chunk_id],
                 root := buildT s.leaf_size [vector] [chunk_id] }
    | some t =>
        { s with vectors := s.vectors ++ [vector], ids := s.ids ++ [chunk_id],
                 root := some (insertT s.leaf_size t vector chunk_id) }

/-- Python tuple comparison on the heap entries `(-distance, id)`. -/
def tupLt (x y : ℝ × Id) : Prop := x.1 < y.1 ∨ (x.1 = y.1 ∧ x.2 < y.2)

/-- The heap is modeled by its list of entries; `heap[0]` is the least entry
under tuple comparison (`(0, "")` on an empty heap, whose access the source
never reaches for `k ≥ 1`). -/
def heapMin : List (ℝ × Id) → ℝ × Id
  | [] => (0, "")
  | x :: xs => xs.foldl (fun a b => if tupLt b a then b else a) x

/-- Remove the first occurrence of an entry from the heap list. -/
def removeFirst : List (ℝ × Id) → ℝ × Id → List (ℝ × Id)
  | [], _ => []
  | y :: ys, x => if y = x then ys else y :: removeFirst ys x

/-- One candidate offered to the bounded heap: `heapq.heappush` while below
capacity `k`, otherwise `heapq.heappushpop`, which replaces the least entry
exactly when it is strictly less than the new one.  The heap is read only
through its least entry and its final multiset of entries, so a list models
it exactly. -/
def pushItem (k : ℕ) (h : List (ℝ × Id)) (x : ℝ × Id) : List (ℝ × Id) :=
  if h.length < k then h ++ [x]
  else if ¬ h.isEmpty ∧ tupLt (heapMin h) x then removeFirst h (heapMin h) ++ [x]
  else h

/-- `BallTree._search_k`: prune a node when the heap is full and the closest
possible point of the ball is farther than the current farthest candidate;
scan leaves into the heap; visit the child with the closer centroid first. -/
def searchK (query : List ℝ) (k : ℕ) : BT → List (ℝ × Id) → List (ℝ × Id)
  | t, heap =>
    if heap.length = k ∧ eucDist query t.centroid - t.radius > -(heapMin heap).1
    then heap
    else
      match t with
      | .leaf ps ids _ _ =>
          (ps.zip ids).foldl
            (fun h pr => pushItem k h (-(eucDist query pr.1), pr.2)) heap
      | .node l r _ _ =>
          if eucDist query l.centroid < eucDist query r.centroid then
            searchK query k r (searchK query k l heap)
          else
            searchK query k l (searchK query k r heap)

/-- `BallTree.search`: empty on an empty index or a dimension mismatch with
the root centroid; otherwise run `_search_k` and sort the swapped heap
entries ascending by their stored (negated) distance.  The stored first
components are `-distance`, so the returned distances are negated and the
sort puts the farthest entries first. -/
def BallTree.search (s : BallTree) (query : List ℝ) (k : ℕ) : List (Id × ℝ) :=
  if s.vectors.isEmpty then []
  else
    match s.root with
    | none => []
    | some t =>
      if query.length ≠ t.centroid.length then []
      else
        List.insertionSort (fun a b => a.2 ≤ b.2)
          ((searchK query k t []).map (fun x => (x.2, x.1)))

/-- A committed chunk as the indexing layer consumes it. -/
structure Chunk where
  id : Id
  document_id : Id
  text : String
  embedding : List ℝ

/-- A document row. -/
structure Document where
  id : Id
  library_id : Id
  name : String

/-- A library row: the eight model fields of `Library`
(`LibraryBase` = TimeBase + name, written_by, description, production_date;
plus id and indexed_at).  Timestamps are modeled as strings. -/
structure Library where
  created_at : String
  updated_at : String
  name : String
  written_by : String
  description : String
  production_date : String
  id : Id
  indexed_at : Option String

/-- Iterating a pydantic model yields one (field name, value) pair per field;
`Library` has eight. -/
def Library.fieldList (l : Library) : List (String × String) :=
  [("created_at", l.created_at), ("updated_at", l.updated_at),
   ("name", l.name), ("written_by", l.written_by),
   ("description", l.description), ("production_date", l.production_date),
   ("id", l.id), ("indexed_at", l.indexed_at.getD "None")]

/-- Python unpacking `a, b, c = xs`: succeeds only on exactly three values,
otherwise raises ValueError. -/
def unpack3 {α : Type} : List α → Except PyErr (α × α × α)
  | [a, b, c] => .ok (a, b, c)
  | _ => .error .valueError

/-- One entry of `IndexBuilder.index`.  `KDTreeIndex` keeps its (vector, id)
pairs and a root that stays `None`: nothing in the repository ever calls
`KDTreeIndex.build`, and its `add_vector` requires a `str` id while every
call site passes a `uuid.UUID`, so adds are skipped and searches (on the
`None` root) return `[]`. -/
inductive IndexVal where
  | linear (s : LinearIndex)
  | ball_tree (s : BallTree)
  | kd_tree (vectors : List (List ℝ × Id))

/-- `Add` fanned out to one index (`self.index[index_type].add_vector`). -/
def IndexVal.add_vector : IndexVal → List ℝ → Id → IndexVal
  | .linear s, v, id => .linear (s.add_vector v id)
  | .ball_tree s, v, id => .ball_tree (s.add_vector v id)
  | .kd_tree prs, _, _ => .kd_tree prs

/-- `Search` dispatched to one index. -/
def IndexVal.search : IndexVal → List ℝ → ℕ → List (Id × ℝ)
  | .linear s, q, k => s.search q k
  | .ball_tree s, q, k => s.search q k
  | .kd_tree _, _, _ => []

/-- State of `IndexBuilder`: the name-to-index dictionary, as an
insertion-ordered association list. -/
structure IndexBuilder where
  index : List (String × IndexVal)

/-- Dictionary assignment `d[key] = v`. -/
def dictSet (assoc : List (String × IndexVal)) (key : String) (v : IndexVal) :
    List (String × IndexVal) :=
  match assoc with
  | [] => [(key, v)]
  | (k, w) :: rest =>
      if k = key then (key, v) :: rest else (k, w) :: dictSet rest key v

/-- The methods defined on the `IndexBuilder` class in `build_index.py`. -/
def IndexBuilder.methodNames : List String :=
  ["__init__", "build_index", "add_vector", "add_vector_by_text",
   "search_index", "_get_chunks"]

/-- The methods defined on the `LinearIndex` class. -/
def LinearIndex.methodNames : List String := ["__init__", "add_vector", "search"]

/-- The methods defined on the `BallTree` class (and `is_leaf` on its node
class). -/
def BallTree.methodNames : List String :=
  ["__init__", "_build", "_split_node", "add_vector", "_insert",
   "_update_node_bounds", "_search_k", "search"]

/-- The methods defined on the `KDTreeIndex` class. -/
def KDTreeIndex.methodNames : List String :=
  ["__init__", "add_vector", "build", "_build_recursive", "search"]

/-- Accessing `index_manager.delete_vector` raises AttributeError: the
`IndexBuilder` class defines no such method (see
`IndexBuilder.methodNames`), although `libraries.py`, `documents.py` and
`tests/test_index.py` all call it. -/
def IndexBuilder.delete_vector (_ : IndexBuilder) (_ : Id) :
    Except PyErr IndexBuilder :=
  .error .attributeError

/-- `IndexBuilder.build_index` over the global chunk scope: with no chunks it
returns `self.index[index_type]` — a dictionary read that raises KeyError
when the index was never built — and otherwise builds the named index kind
from the stringified chunk ids and embeddings (ValueError on an unsupported
name). -/
def IndexBuilder.build_index (chunks : List Chunk) (b : IndexBuilder)
    (index_type : String) : Except PyErr IndexBuilder :=
  let ids := chunks.map (fun c => c.id)
  let vectors := chunks.map (fun c => c.embedding)
  if chunks.isEmpty then
    match (b.index.lookup index_type : Option IndexVal) with
    | none => .error (.keyError index_type)
    | some _ => .ok b
  else if index_type = "linear" then
    .ok ⟨dictSet b.index "linear" (.linear ⟨vectors, ids⟩)⟩
  else if index_type = "kd_tree" then
    .ok ⟨dictSet b.index "kd_tree" (.kd_tree (vectors.zip ids))⟩
  else if index_type = "ball_tree" then
    .ok ⟨dictSet b.index "ball_tree" (.ball_tree (BallTree.init vectors ids))⟩
  else .error .valueError

/-- `IndexBuilder.__init__(session, index_types)`: start from an empty
dictionary and run `build_index` for each configured type in order. -/
def IndexBuilder.init (chunks : List Chunk) (index_types : List String) :
    Except PyErr IndexBuilder :=
  index_types.foldlM (fun b ty => IndexBuilder.build_index chunks b ty) ⟨[]⟩

/-- `IndexBuilder.add_vector`: under the lock, fan the add out to every
configured index. -/
def IndexBuilder.add_vector (b : IndexBuilder) (vector : List ℝ) (id : Id) :
    IndexBuilder :=
  ⟨b.index.map (fun p => (p.1, p.2.add_vector vector id))⟩

/-- A search result row of `IndexBuilder.search_index`: the chunk when the
store still has the id, otherwise an id/distance stub dictionary. -/
inductive SearchHit where
  | chunk (c : Chunk)
  | stub (id : Id) (distance : ℝ)

/-- `IndexBuilder.search_index`: embed the query, read
`self.index[index_type]` (KeyError when the name is not configured), search
it, and resolve each returned id against the chunk store. -/
def IndexBuilder.search_index (store : List Chunk) (b : IndexBuilder)
    (embed : String → List ℝ) (query : String) (k : ℕ) (index_type : String) :
    Except PyErr (List SearchHit) :=
  match (b.index.lookup index_type : Option IndexVal) with
  | none => .error (.keyError index_type)
  | some idx =>
      .ok ((idx.search (embed query) k).map (fun pr =>
        match store.find? (fun c => c.id == pr.1) with
        | some c => SearchHit.chunk c
        | none => SearchHit.stub pr.1 pr.2))

/-- The `POST /chunks/search` route body: for each requested index type, take
the `.text` of every hit (an id/distance stub dictionary has no `.text`
attribute and raises AttributeError).  FastAPI maps any raised exception to
an HTTP 500; no handler maps KeyError to a 400. -/
def search_chunks (store : List Chunk) (b : IndexBuilder)
    (embed : String → List ℝ) (query : String) (k : ℕ)
    (index_types : List String) : Except PyErr (List (String × List String)) :=
  index_types.foldlM (fun acc ty => do
    let hits ← IndexBuilder.search_index store b embed query k ty
    let texts ← hits.mapM (fun h =>
      match h with
      | .chunk c => Except.ok c.text
      | .stub _ _ => Except.error PyErr.attributeError)
    return acc ++ [(ty, texts)]) []

/-- HTTP outcome of `POST /chunks/search`. -/
def search_chunks_route (store : List Chunk) (b : IndexBuilder)
    (embed : String → List ℝ) (query : String) (k : ℕ)
    (index_types : List String) : HttpOutcome :=
  match search_chunks store b embed query k index_types with
  | .ok _ => .ok
  | .error e => .serverError e

/-- The application state the delete-library flow touches. -/
structure AppState where
  libraries : List Library
  documents : List Document
  chunks : List Chunk
  builder : IndexBuilder

/-- `LibraryService.delete_library`: `None` when the library does not exist;
otherwise cascade-delete the documents of the library and their chunks,
delete the library row, and return a copy of the deleted library (the
document and chunk id lists computed by `delete_documents_by_library` are
discarded). -/
def LibraryService.delete_library (st : AppState) (lid : Id) :
    Option (Library × AppState) :=
  match st.libraries.find? (fun l => l.id == lid) with
  | none => none
  | some lib =>
      let docIds := (st.documents.filter (fun d => d.library_id == lid)).map
        (fun d => d.id)
      some (lib,
        { st with
          libraries := st.libraries.filter (fun l => !(l.id == lid)),
          documents := st.documents.filter (fun d => !(d.library_id == lid)),
          chunks := st.chunks.filter (fun c => !(docIds.contains c.document_id)) })

/-- The `DELETE /libraries/.{library_id}` route: 404 when the service returns
`None`; otherwise the router unpacks the returned `Library` model into three
names (`chunks_ids_deleted, documents_ids_deleted, library_deleted`), which
raises ValueError since the model iterates as eight field pairs; were the
unpacking ever to succeed the following loop would call the nonexistent
`index_manager.delete_vector` and raise AttributeError.  The index manager is
never touched. -/
def delete_library_route (st : AppState) (lid : Id) : HttpOutcome × AppState :=
  match LibraryService.delete_library st lid with
  | none => (.notFound, st)
  | some (lib, st') =>
      match unpack3 lib.fieldList with
      | .error e => (.serverError e, st')
      | .ok _ => (.serverError .attributeError, st')

/-- Invariant I4: every point reachable from a node lies inside its ball,
recursively at every node. -/
def BT.ballInv : BT → Prop
  | .leaf ps _ c r => ∀ p ∈ ps, eucDist p c ≤ r
  | .node l r c rad =>
      (∀ p ∈ l.points ++ r.points, eucDist p c ≤ rad) ∧ l.ballInv ∧ r.ballInv

/-- Structural well-formedness of a reachable tree over dimension `D`: leaves
are nonempty with paired id lists, and all points and centroids have length
`D`. -/
def BT.dimOK (D : ℕ) : BT → Prop
  | .leaf ps ids c _ =>
      ps ≠ [] ∧ ps.length = ids.length ∧ (∀ p ∈ ps, p.length = D) ∧ c.length = D
  | .node l r c _ => l.dimOK D ∧ r.dimOK D ∧ c.length = D

/-- Hypotheses under which a prior ball-tree state behaves for a fresh vector
`v` of dimension `D`: if a root exists it satisfies the ball invariant, is
well-formed, and stores no point equal to `v`. -/
def BallTree.goodFor (s : BallTree) (D : ℕ) (v : List ℝ) : Prop :=
  match s.root with
  | none => True
  | some t => t.ballInv ∧ t.dimOK D ∧ ∀ pr ∈ t.pairs, pr.1 ≠ v

/-- Coordinate list as a point of Euclidean space of dimension `D`, used to
transfer metric facts. -/
def toEuc (D : ℕ) (v : List ℝ) : EuclideanSpace ℝ (Fin D) :=
  fun i => v.getD i 0

end

lemma sqDist_nil_left (w : List ℝ) : sqDist [] w = 0 := by simp [sqDist]

lemma sqDist_nil_right (v : List ℝ) : sqDist v [] = 0 := by simp [sqDist]

lemma sqDist_cons_cons (a b : ℝ) (v w : List ℝ) :
    sqDist (a :: v) (b :: w) = (a - b) ^ 2 + sqDist v w := by
  simp [sqDist]

lemma sqDist_nonneg (v w : List ℝ) : 0 ≤ sqDist v w := by
  induction v generalizing w with
  | nil => simp [sqDist_nil_left]
  | cons a v ih =>
    cases w with
    | nil => simp [sqDist_nil_right]
    | cons b w =>
      rw [sqDist_cons_cons]
      have := ih w
      positivity

lemma sqDist_self (v : List ℝ) : sqDist v v = 0 := by
  induction v with
  | nil => simp [sqDist_nil_left]
  | cons a v ih => rw [sqDist_cons_cons]; simp [ih]

lemma eucDist_nonneg (v w : List ℝ) : 0 ≤ eucDist v w := Real.sqrt_nonneg _

lemma eucDist_self (v : List ℝ) : eucDist v v = 0 := by
  rw [eucDist, sqDist_self, Real.sqrt_zero]

lemma sqDist_eq_zero_iff {v w : List ℝ} (h : v.length = w.length) :
    sqDist v w = 0 ↔ v = w := by
  induction v generalizing w with
  | nil =>
    cases w with
    | nil => simp [sqDist_nil_left]
    | cons b w => simp at h
  | cons a v ih =>
    cases w with
    | nil => simp at h
    | cons b w =>
      rw [sqDist_cons_cons]
      have hsq : (0:ℝ) ≤ (a - b) ^ 2 := by positivity
      rw [add_eq_zero_iff_of_nonneg hsq (sqDist_nonneg v w)]
      simp only [List.length_cons, Nat.add_right_cancel_iff] at h
      constructor
      · rintro ⟨h1, h2⟩
        have ha : a = b := by nlinarith [sq_nonneg (a - b)]
        have hv : v = w := (ih h).mp h2
        rw [ha, hv]
      · rintro heq
        injection heq with h1 h2
        subst h1; subst h2
        exact ⟨by ring, sqDist_self v⟩

lemma eucDist_eq_zero_iff {v w : List ℝ} (h : v.length = w.length) :
    eucDist v w = 0 ↔ v = w := by
  rw [eucDist, Real.sqrt_eq_zero (sqDist_nonneg v w)]
  exact sqDist_eq_zero_iff h

lemma eucDist_pos_of_ne {v w : List ℝ} (h : v.length = w.length)
    (hne : v ≠ w) : 0 < eucDist v w := by
  rcases lt_or_eq_of_le (eucDist_nonneg v w) with hlt | heq
  · exact hlt
  · exact absurd ((eucDist_eq_zero_iff h).mp heq.symm) hne

lemma sqDist_eq_sum {D : ℕ} {v w : List ℝ} (hv : v.length = D)
    (hw : w.length = D) :
    sqDist v w = ∑ i : Fin D, (v.getD i 0 - w.getD i 0) ^ 2 := by
  induction D generalizing v w with
  | zero =>
    rw [List.length_eq_zero] at hv hw
    subst hv; subst hw
    simp [sqDist_nil_left]
  | succ D ih =>
    cases v with
    | nil => simp at hv
    | cons a v =>
      cases w with
      | nil => simp at hw
      | cons b w =>
        simp only [List.length_cons, Nat.add_right_cancel_iff] at hv hw
        rw [sqDist_cons_cons, Fin.sum_univ_succ]
        simp only [Fin.val_zero, Fin.val_succ, List.getD_cons_zero,
          List.getD_cons_succ]
        rw [ih hv hw]

lemma eucDist_eq_dist {D : ℕ} {v w : List ℝ} (hv : v.length = D)
    (hw : w.length = D) : eucDist v w = dist (toEuc D v) (toEuc D w) := by
  rw [eucDist, EuclideanSpace.dist_eq, sqDist_eq_sum hv hw]
  congr 1
  refine Finset.sum_congr rfl (fun i _ => ?_)
  rw [Real.dist_eq, sq_abs]
  rfl

lemma eucDist_triangle {D : ℕ} {x y z : List ℝ} (hx : x.length = D)
    (hy : y.length = D) (hz : z.length = D) :
    eucDist x z ≤ eucDist x y + eucDist y z := by
  rw [eucDist_eq_dist hx hz, eucDist_eq_dist hx hy, eucDist_eq_dist hy hz]
  exact dist_triangle _ _ _

lemma le_foldl_max (b : ℝ) (xs : List ℝ) : b ≤ xs.foldl max b := by
  induction xs generalizing b with
  | nil => simp
  | cons x xs ih => exact le_trans (le_max_left b x) (ih (max b x))

lemma mem_le_foldl_max {x : ℝ} {xs : List ℝ} (b : ℝ) (hx : x ∈ xs) :
    x ≤ xs.foldl max b := by
  induction xs generalizing b with
  | nil => cases hx
  | cons y ys ih =>
    rcases List.mem_cons.mp hx with heq | hmem
    · subst heq
      exact le_trans (le_max_right b x) (le_foldl_max (max b x) ys)
    · exact ih (max b y) hmem

lemma le_listMax {x : ℝ} {l : List ℝ} (h : x ∈ l) : x ≤ listMax l := by
  cases l with
  | nil => cases h
  | cons a xs =>
    rcases List.mem_cons.mp h with heq | hmem
    · subst heq; exact le_foldl_max x xs
    · exact mem_le_foldl_max a hmem

lemma radiusOf_spec {ps : List (List ℝ)} {c p : List ℝ} (hp : p ∈ ps) :
    eucDist p c ≤ radiusOf ps c :=
  le_listMax (List.mem_map_of_mem _ hp)

lemma vadd_length (v w : List ℝ) : (vadd v w).length = min v.length w.length := by
  simp [vadd]

lemma vsum_length {D : ℕ} {ps : List (List ℝ)} (hps : ∀ p ∈ ps, p.length = D)
    (hne : ps ≠ []) : (vsum ps).length = D := by
  cases ps with
  | nil => exact absurd rfl hne
  | cons p ps =>
    rw [vsum]
    have hgen : ∀ (l : List (List ℝ)) (acc : List ℝ), acc.length = D →
        (∀ q ∈ l, q.length = D) → (l.foldl vadd acc).length = D := by
      intro l
      induction l with
      | nil => intro acc h _; simpa using h
      | cons q l ih =>
        intro acc hacc hall
        rw [List.foldl_cons]
        refine ih _ ?_ (fun x hx => hall x (List.mem_cons_of_mem _ hx))
        rw [vadd_length, hacc, hall q (List.mem_cons_self _ _)]
        simp
    exact hgen ps p (hps p (List.mem_cons_self _ _))
      (fun q hq => hps q (List.mem_cons_of_mem _ hq))

lemma mean_length {D : ℕ} {ps : List (List ℝ)} (hps : ∀ p ∈ ps, p.length = D)
    (hne : ps ≠ []) : (mean ps).length = D := by
  rw [mean, List.length_map]
  exact vsum_length hps hne

lemma mkLeaf_points (ps : List (List ℝ)) (ids : List Id) :
    (mkLeaf ps ids).points = ps := rfl

lemma mkLeaf_pairs (ps : List (List ℝ)) (ids : List Id) :
    (mkLeaf ps ids).pairs = ps.zip ids := rfl

lemma mkLeaf_centroid (ps : List (List ℝ)) (ids : List Id) :
    (mkLeaf ps ids).centroid = mean ps := rfl

lemma mkLeaf_ballInv (ps : List (List ℝ)) (ids : List Id) :
    (mkLeaf ps ids).ballInv := by
  intro p hp
  exact radiusOf_spec hp

lemma mkLeaf_dimOK {D : ℕ} {ps : List (List ℝ)} {ids : List Id}
    (hne : ps ≠ []) (hlen : ps.length = ids.length)
    (hps : ∀ p ∈ ps, p.length = D) : (mkLeaf ps ids).dimOK D :=
  ⟨hne, hlen, hps, mean_length hps hne⟩

lemma ballInv_points {t : BT} (h : t.ballInv) :
    ∀ p ∈ t.points, eucDist p t.centroid ≤ t.radius := by
  cases t with
  | leaf ps ids c r => exact h
  | node l r c rad => exact h.1

lemma dimOK_centroid {D : ℕ} {t : BT} (h : t.dimOK D) :
    t.centroid.length = D := by
  cases t with
  | leaf ps ids c r => exact h.2.2.2
  | node l r c rad => exact h.2.2

lemma dimOK_points_len {D : ℕ} {t : BT} (h : t.dimOK D) :
    ∀ p ∈ t.points, p.length = D := by
  induction t with
  | leaf ps ids c r => exact h.2.2.1
  | node l r c rad ihl ihr =>
    intro p hp
    rcases List.mem_append.mp hp with hl | hr
    · exact ihl h.1 p hl
    · exact ihr h.2.1 p hr

lemma dimOK_points_ne {D : ℕ} {t : BT} (h : t.dimOK D) : t.points ≠ [] := by
  induction t with
  | leaf ps ids c r => exact h.1
  | node l r c rad ihl ihr =>
    have := ihl h.1
    simp only [BT.points]
    intro happ
    rcases List.append_eq_nil.mp happ with ⟨h1, _⟩
    exact this h1

lemma mem_pairs_points {t : BT} {pr : List ℝ × Id} (h : pr ∈ t.pairs) :
    pr.1 ∈ t.points := by
  induction t with
  | leaf ps ids c r =>
    exact (List.of_mem_zip h).1
  | node l r c rad ihl ihr =>
    rcases List.mem_append.mp h with hl | hr
    · exact List.mem_append.mpr (Or.inl (ihl hl))
    · exact List.mem_append.mpr (Or.inr (ihr hr))

lemma zip_map_fst_snd {α β : Type} (l : List (α × β)) :
    (l.map Prod.fst).zip (l.map Prod.snd) = l := by
  induction l with
  | nil => rfl
  | cons x xs ih => simp [ih]

lemma zip_append_singleton {α β : Type} (l₁ : List α) (l₂ : List β) (a : α)
    (b : β) (h : l₁.length = l₂.length) :
    (l₁ ++ [a]).zip (l₂ ++ [b]) = l₁.zip l₂ ++ [(a, b)] :=
  List.zip_append h

lemma splitNode_pairs_perm (ps : List (List ℝ)) (ids : List Id)
    (hlen : ps.length = ids.length) :
    ((splitNode ps ids).1.zip (splitNode ps ids).2.1 ++
      (splitNode ps ids).2.2.1.zip (splitNode ps ids).2.2.2).Perm
      (ps.zip ids) := by
  unfold splitNode
  dsimp only
  split
  · have htake : (ps.take (ps.length / 2)).length = (ids.take (ps.length / 2)).length := by
      simp [hlen]
    have : (ps.take (ps.length / 2)).zip (ids.take (ps.length / 2)) ++
        (ps.drop (ps.length / 2)).zip (ids.drop (ps.length / 2)) = ps.zip ids := by
      rw [← List.zip_append htake, List.take_append_drop, List.take_append_drop]
    rw [this]
  · rw [zip_map_fst_snd, zip_map_fst_snd]
    exact List.filter_append_perm _ _

lemma splitNode_len_left (ps : List (List ℝ)) (ids : List Id)
    (hlen : ps.length = ids.length) :
    (splitNode ps ids).1.length = (splitNode ps ids).2.1.length := by
  unfold splitNode
  dsimp only
  split
  · simp [hlen]
  · simp

lemma splitNode_len_right (ps : List (List ℝ)) (ids : List Id)
    (hlen : ps.length = ids.length) :
    (splitNode ps ids).2.2.1.length = (splitNode ps ids).2.2.2.length := by
  unfold splitNode
  dsimp only
  split
  · simp [hlen]
  · simp

lemma splitNode_mem_left {ps : List (List ℝ)} {ids : List Id} {p : List ℝ}
    (h : p ∈ (splitNode ps ids).1) : p ∈ ps := by
  unfold splitNode at h
  dsimp only at h
  split at h
  · exact List.take_subset _ _ h
  · rcases List.mem_map.mp h with ⟨pr, hpr, hfst⟩
    have := (List.of_mem_zip (List.mem_of_mem_filter hpr)).1
    rw [← hfst]; exact this

lemma splitNode_mem_right {ps : List (List ℝ)} {ids : List Id} {p : List ℝ}
    (h : p ∈ (splitNode ps ids).2.2.1) : p ∈ ps := by
  unfold splitNode at h
  dsimp only at h
  split at h
  · exact List.drop_subset _ _ h
  · rcases List.mem_map.mp h with ⟨pr, hpr, hfst⟩
    have := (List.of_mem_zip (List.mem_of_mem_filter hpr)).1
    rw [← hfst]; exact this

lemma splitNode_ne_left {ps : List (List ℝ)} {ids : List Id}
    (h2 : 2 ≤ ps.length) : (splitNode ps ids).1 ≠ [] := by
  unfold splitNode
  dsimp only
  split
  · intro hnil
    dsimp only at hnil
    have hlt : (ps.take (ps.length / 2)).length = min (ps.length / 2) ps.length :=
      List.length_take _ _
    rw [hnil] at hlt
    simp only [List.length_nil] at hlt
    have hmin : min (ps.length / 2) ps.length = ps.length / 2 :=
      Nat.min_eq_left (Nat.div_le_self _ _)
    omega
  · rename_i hne
    rw [Bool.or_eq_true, not_or] at hne
    obtain ⟨hl, _⟩ := hne
    intro hnil
    dsimp only at hnil
    rw [List.map_eq_nil_iff] at hnil
    exact hl (by rw [hnil]; rfl)

lemma updateBounds_node_eq (l r : BT) (c : List ℝ) (rad : ℝ) :
    updateBounds (.node l r c rad) =
      .node l r ((vadd l.centroid r.centroid).map (fun x => x / 2))
        (max (eucDist l.centroid ((vadd l.centroid r.centroid).map (fun x => x / 2)) + l.radius)
             (eucDist r.centroid ((vadd l.centroid r.centroid).map (fun x => x / 2)) + r.radius)) :=
  rfl

lemma updateBounds_node_pairs (l r : BT) (c : List ℝ) (rad : ℝ) :
    (updateBounds (.node l r c rad)).pairs = l.pairs ++ r.pairs := rfl

lemma updateBounds_leaf_ne {ps : List (List ℝ)} {ids : List Id}
    {c : List ℝ} {r : ℝ} (h : ps ≠ []) :
    updateBounds (.leaf ps ids c r) = mkLeaf ps ids := by
  rw [updateBounds, if_neg]
  simpa using h

lemma splitNode_ne_right {ps : List (List ℝ)} {ids : List Id}
    (h2 : 2 ≤ ps.length) : (splitNode ps ids).2.2.1 ≠ [] := by
  unfold splitNode
  dsimp only
  split
  · intro hnil
    dsimp only at hnil
    have hlt : (ps.drop (ps.length / 2)).length = ps.length - ps.length / 2 :=
      List.length_drop _ _
    rw [hnil] at hlt
    simp only [List.length_nil] at hlt
    omega
  · rename_i hne
    rw [Bool.or_eq_true, not_or] at hne
    obtain ⟨_, hr⟩ := hne
    intro hnil
    dsimp only at hnil
    rw [List.map_eq_nil_iff] at hnil
    exact hr (by rw [hnil]; rfl)

lemma insertT_pairs_perm {D : ℕ} (lsz : ℕ) {t : BT} (hdim : t.dimOK D)
    (v : List ℝ) (id : Id) :
    (insertT lsz t v id).pairs.Perm (t.pairs ++ [(v, id)]) := by
  induction t with
  | leaf ps ids c r =>
    obtain ⟨hne, hlen, hps, hc⟩ := hdim
    rw [insertT]
    split
    · rw [updateBounds_node_pairs, mkLeaf_pairs, mkLeaf_pairs]
      have hperm := splitNode_pairs_perm (ps ++ [v]) (ids ++ [id]) (by simp [hlen])
      rw [zip_append_singleton _ _ _ _ hlen] at hperm
      simpa [BT.pairs] using hperm
    · rw [updateBounds_leaf_ne (by simp), mkLeaf_pairs,
        zip_append_singleton _ _ _ _ hlen]
      simp [BT.pairs]
  | node l r c rad ihl ihr =>
    obtain ⟨hld, hrd, _⟩ := hdim
    rw [insertT]
    split
    · rw [updateBounds_node_pairs]
      have h1 : ((insertT lsz l v id).pairs ++ r.pairs).Perm
          ((l.pairs ++ [(v, id)]) ++ r.pairs) := (ihl hld).append_right _
      refine h1.trans ?_
      have h2 : ([(v, id)] ++ r.pairs).Perm (r.pairs ++ [(v, id)]) :=
        List.perm_append_comm
      have h3 : (l.pairs ++ ([(v, id)] ++ r.pairs)).Perm
          (l.pairs ++ (r.pairs ++ [(v, id)])) := h2.append_left _
      simpa [BT.pairs, List.append_assoc] using h3
    · rw [updateBounds_node_pairs]
      have h1 : (l.pairs ++ (insertT lsz r v id).pairs).Perm
          (l.pairs ++ (r.pairs ++ [(v, id)])) := (ihr hrd).append_left _
      simpa [BT.pairs, List.append_assoc] using h1

lemma insertT_dimOK {D : ℕ} {lsz : ℕ} (hlsz : 1 ≤ lsz) {t : BT}
    (hdim : t.dimOK D) {v : List ℝ} (hv : v.length = D) (id : Id) :
    (insertT lsz t v id).dimOK D := by
  induction t with
  | leaf ps ids c r =>
    obtain ⟨hne, hlen, hps, hc⟩ := hdim
    have hps' : ∀ p ∈ ps ++ [v], p.length = D := by
      intro p hp
      rcases List.mem_append.mp hp with h | h
      · exact hps p h
      · rw [List.mem_singleton.mp h]; exact hv
    rw [insertT]
    split
    · rename_i hbig
      simp only [List.length_append, List.length_singleton] at hbig
      have h2 : 2 ≤ (ps ++ [v]).length := by
        simp only [List.length_append, List.length_singleton]
        omega
      have hlen' : (ps ++ [v]).length = (ids ++ [id]).length := by simp [hlen]
      have hL := mkLeaf_dimOK (D := D) (splitNode_ne_left h2)
        (splitNode_len_left _ _ hlen')
        (fun p hp => hps' p (splitNode_mem_left hp))
      have hR := mkLeaf_dimOK (D := D) (splitNode_ne_right h2)
        (splitNode_len_right _ _ hlen')
        (fun p hp => hps' p (splitNode_mem_right hp))
      rw [updateBounds_node_eq]
      refine ⟨hL, hR, ?_⟩
      rw [List.length_map, vadd_length, dimOK_centroid hL, dimOK_centroid hR]
      simp
    · rw [updateBounds_leaf_ne (by simp)]
      exact mkLeaf_dimOK (by simp) (by simp [hlen]) hps'
  | node l r c rad ihl ihr =>
    obtain ⟨hld, hrd, hcl⟩ := hdim
    rw [insertT]
    split
    · have h1 := ihl hld
      rw [updateBounds_node_eq]
      refine ⟨h1, hrd, ?_⟩
      rw [List.length_map, vadd_length, dimOK_centroid h1, dimOK_centroid hrd]
      simp
    · have h1 := ihr hrd
      rw [updateBounds_node_eq]
      refine ⟨hld, h1, ?_⟩
      rw [List.length_map, vadd_length, dimOK_centroid hld, dimOK_centroid h1]
      simp

lemma updateBounds_node_ballInv {D : ℕ} {l r : BT} (c0 : List ℝ) (rad0 : ℝ)
    (hl : l.ballInv) (hr : r.ballInv) (hld : l.dimOK D) (hrd : r.dimOK D) :
    (updateBounds (.node l r c0 rad0)).ballInv := by
  rw [updateBounds_node_eq]
  refine ⟨?_, hl, hr⟩
  have hc' : ((vadd l.centroid r.centroid).map (fun x => x / 2)).length = D := by
    rw [List.length_map, vadd_length, dimOK_centroid hld, dimOK_centroid hrd]
    simp
  intro p hp
  rcases List.mem_append.mp hp with hpl | hpr
  · have h1 := eucDist_triangle (dimOK_points_len hld p hpl)
      (dimOK_centroid hld) hc'
    have h2 := ballInv_points hl p hpl
    refine le_trans (le_trans h1 ?_) (le_max_left _ _)
    linarith
  · have h1 := eucDist_triangle (dimOK_points_len hrd p hpr)
      (dimOK_centroid hrd) hc'
    have h2 := ballInv_points hr p hpr
    refine le_trans (le_trans h1 ?_) (le_max_right _ _)
    linarith

lemma insertT_ballInv {D : ℕ} {lsz : ℕ} (hlsz : 1 ≤ lsz) {t : BT}
    (hinv : t.ballInv) (hdim : t.dimOK D) {v : List ℝ} (hv : v.length = D)
    (id : Id) : (insertT lsz t v id).ballInv := by
  induction t with
  | leaf ps ids c r =>
    obtain ⟨hne, hlen, hps, hc⟩ := hdim
    have hps' : ∀ p ∈ ps ++ [v], p.length = D := by
      intro p hp
      rcases List.mem_append.mp hp with h | h
      · exact hps p h
      · rw [List.mem_singleton.mp h]; exact hv
    rw [insertT]
    split
    · rename_i hbig
      simp only [List.length_append, List.length_singleton] at hbig
      have h2 : 2 ≤ (ps ++ [v]).length := by
        simp only [List.length_append, List.length_singleton]
        omega
      have hlen' : (ps ++ [v]).length = (ids ++ [id]).length := by simp [hlen]
      exact updateBounds_node_ballInv (D := D) _ _
        (mkLeaf_ballInv _ _) (mkLeaf_ballInv _ _)
        (mkLeaf_dimOK (splitNode_ne_left h2) (splitNode_len_left _ _ hlen')
          (fun p hp => hps' p (splitNode_mem_left hp)))
        (mkLeaf_dimOK (splitNode_ne_right h2) (splitNode_len_right _ _ hlen')
          (fun p hp => hps' p (splitNode_mem_right hp)))
    · rw [updateBounds_leaf_ne (by simp)]
      exact mkLeaf_ballInv _ _
  | node l r c rad ihl ihr =>
    obtain ⟨houter, hlinv, hrinv⟩ := hinv
    obtain ⟨hld, hrd, hcl⟩ := hdim
    rw [insertT]
    split
    · exact updateBounds_node_ballInv (D := D) _ _ (ihl hlinv hld) hrinv
        (insertT_dimOK hlsz hld hv id) hrd
    · exact updateBounds_node_ballInv (D := D) _ _ hlinv (ihr hrinv hrd) hld
        (insertT_dimOK hlsz hrd hv id)

lemma buildT_sound (lsz : ℕ) :
    ∀ (n : ℕ) (ps : List (List ℝ)) (ids : List Id) (t : BT),
      ps.length ≤ n → buildT lsz ps ids = some t →
      (∀ q ∈ t.points, q ∈ ps) ∧ t.ballInv := by
  intro n
  induction n with
  | zero =>
    intro ps ids t hle hb
    have hnil : ps = [] := List.length_eq_zero.mp (Nat.le_zero.mp hle)
    subst hnil
    rw [buildT] at hb
    simp at hb
  | succ n ih =>
    intro ps ids t hle hb
    rw [buildT] at hb
    split at hb
    · exact absurd hb (by simp)
    · split at hb
      · have ht : mkLeaf ps ids = t := Option.some.inj hb
        subst ht
        exact ⟨fun q hq => hq, mkLeaf_ballInv _ _⟩
      · rename_i hnem hsmall
        rw [not_or] at hsmall
        have h2 : 2 ≤ ps.length := by omega
        have hlt1 := splitNode_fst_length_lt ps ids h2
        have hlt2 := splitNode_rst_length_lt ps ids h2
        split at hb
        · rename_i l r hbl hbr
          have ht : BT.node l r (mean ps) (radiusOf ps (mean ps)) = t :=
            Option.some.inj hb
          subst ht
          have ihl := ih _ _ l (by omega) hbl
          have ihr := ih _ _ r (by omega) hbr
          have hsub : ∀ q ∈ (BT.node l r (mean ps) (radiusOf ps (mean ps))).points,
              q ∈ ps := by
            intro q hq
            rcases List.mem_append.mp hq with hql | hqr
            · exact splitNode_mem_left (ihl.1 q hql)
            · exact splitNode_mem_right (ihr.1 q hqr)
          exact ⟨hsub, fun p hp => radiusOf_spec (hsub p hp), ihl.2, ihr.2⟩
        · rename_i hmatch
          have ht : mkLeaf ps ids = t := Option.some.inj hb
          subst ht
          exact ⟨fun q hq => hq, mkLeaf_ballInv _ _⟩

section
open scoped Classical

lemma pushItem_one_nil (x : ℝ × Id) : pushItem 1 [] x = [x] := by
  rw [pushItem, if_pos (by simp)]
  simp

lemma pushItem_one_low {d : ℝ} {s : Id} {x : ℝ × Id} (hd : d < x.1) :
    pushItem 1 [(d, s)] x = [x] := by
  rw [pushItem, if_neg (by simp), if_pos]
  · show removeFirst [(d, s)] (heapMin [(d, s)]) ++ [x] = [x]
    have hm : heapMin [(d, s)] = (d, s) := rfl
    rw [hm, removeFirst, if_pos rfl]
    simp
  · refine ⟨by simp, ?_⟩
    have hm : heapMin [(d, s)] = (d, s) := rfl
    rw [hm]
    exact Or.inl hd

lemma pushItem_one_keep {d : ℝ} {s : Id} {x : ℝ × Id}
    (hnd : ¬ tupLt (d, s) x) : pushItem 1 [(d, s)] x = [(d, s)] := by
  rw [pushItem, if_neg (by simp), if_neg]
  rintro ⟨-, hlt⟩
  have hm : heapMin [(d, s)] = (d, s) := rfl
  rw [hm] at hlt
  exact hnd hlt

lemma pushItem_one_pre {h : List (ℝ × Id)} {x : ℝ × Id}
    (hpre : h = [] ∨ ∃ d s, h = [(d, s)] ∧ d < 0) (hx : x.1 < 0) :
    ∃ d s, pushItem 1 h x = [(d, s)] ∧ d < 0 := by
  rcases hpre with rfl | ⟨d, s, rfl, hd⟩
  · exact ⟨x.1, x.2, by rw [pushItem_one_nil], hx⟩
  · by_cases hlt : tupLt (d, s) x
    · exact ⟨x.1, x.2, by
        rw [pushItem, if_neg (by simp), if_pos ⟨by simp, by simpa [heapMin] using hlt⟩]
        have hm : heapMin [(d, s)] = (d, s) := rfl
        rw [hm, removeFirst, if_pos rfl]
        simp, hx⟩
    · exact ⟨d, s, pushItem_one_keep hlt, hd⟩

lemma pushItem_one_target {h : List (ℝ × Id)} {x : ℝ × Id}
    (hpre : h = [] ∨ ∃ d s, h = [(d, s)] ∧ d < 0) (hx : x.1 = 0) :
    pushItem 1 h x = [x] := by
  rcases hpre with rfl | ⟨d, s, rfl, hd⟩
  · exact pushItem_one_nil x
  · exact pushItem_one_low (by rw [hx]; exact hd)

lemma pushItem_one_onTarget {id0 : Id} {x : ℝ × Id} (hx : x.1 < 0) :
    pushItem 1 [((0 : ℝ), id0)] x = [(0, id0)] := by
  refine pushItem_one_keep ?_
  rintro (h | ⟨h, -⟩)
  · simp only at h; linarith
  · simp only at h; linarith

lemma foldPush_avoid (q : List ℝ) (L : List (List ℝ × Id)) :
    ∀ h, (∀ pr ∈ L, 0 < eucDist q pr.1) →
    (h = [] ∨ ∃ d s, h = [(d, s)] ∧ d < 0) →
    ((L.foldl (fun h pr => pushItem 1 h (-(eucDist q pr.1), pr.2)) h) = [] ∨
      ∃ d s, (L.foldl (fun h pr => pushItem 1 h (-(eucDist q pr.1), pr.2)) h)
        = [(d, s)] ∧ d < 0) := by
  induction L with
  | nil => intro h _ hpre; exact hpre
  | cons pr L ih =>
    intro h hall hpre
    rw [List.foldl_cons]
    refine ih _ (fun x hx => hall x (List.mem_cons_of_mem _ hx)) ?_
    refine Or.inr (pushItem_one_pre hpre ?_)
    have := hall pr (List.mem_cons_self _ _)
    simp only
    linarith

lemma foldPush_onTarget (q : List ℝ) (id0 : Id) (L : List (List ℝ × Id)) :
    (∀ pr ∈ L, 0 < eucDist q pr.1) →
    L.foldl (fun h pr => pushItem 1 h (-(eucDist q pr.1), pr.2)) [((0 : ℝ), id0)]
      = [(0, id0)] := by
  induction L with
  | nil => intro _; rfl
  | cons pr L ih =>
    intro hall
    rw [List.foldl_cons]
    have h1 : pushItem 1 [((0 : ℝ), id0)] (-(eucDist q pr.1), pr.2) = [(0, id0)] := by
      refine pushItem_one_onTarget ?_
      have := hall pr (List.mem_cons_self _ _)
      simp only
      linarith
    rw [h1]
    exact ih (fun x hx => hall x (List.mem_cons_of_mem _ hx))

lemma foldPush_target (q : List ℝ) (id0 : Id) (L1 L2 : List (List ℝ × Id))
    (h : List (ℝ × Id)) (h1 : ∀ pr ∈ L1, 0 < eucDist q pr.1)
    (h2 : ∀ pr ∈ L2, 0 < eucDist q pr.1)
    (hpre : h = [] ∨ ∃ d s, h = [(d, s)] ∧ d < 0) :
    (L1 ++ (q, id0) :: L2).foldl
      (fun h pr => pushItem 1 h (-(eucDist q pr.1), pr.2)) h = [(0, id0)] := by
  rw [List.foldl_append, List.foldl_cons]
  have hmid := foldPush_avoid q L1 h h1 hpre
  have hstep : pushItem 1
      (L1.foldl (fun h pr => pushItem 1 h (-(eucDist q pr.1), pr.2)) h)
      (-(eucDist q q), id0) = [(0, id0)] := by
    have := pushItem_one_target hmid (x := (-(eucDist q q), id0))
      (by simp [eucDist_self])
    rw [this]
    simp [eucDist_self]
  rw [hstep]
  exact foldPush_onTarget q id0 L2 h2

lemma searchK_avoid (q : List ℝ) :
    ∀ (st : BT) (h : List (ℝ × Id)),
    (∀ pr ∈ st.pairs, 0 < eucDist q pr.1) →
    (h = [] ∨ ∃ d s, h = [(d, s)] ∧ d < 0) →
    (searchK q 1 st h = [] ∨ ∃ d s, searchK q 1 st h = [(d, s)] ∧ d < 0) := by
  intro st
  induction st with
  | leaf ps ids c r =>
    intro h hav hpre
    rw [searchK]
    split
    · exact hpre
    · exact foldPush_avoid q (ps.zip ids) h (fun pr hpr => hav pr hpr) hpre
  | node l r c rad ihl ihr =>
    intro h hav hpre
    have havl : ∀ pr ∈ l.pairs, 0 < eucDist q pr.1 :=
      fun pr hpr => hav pr (List.mem_append.mpr (Or.inl hpr))
    have havr : ∀ pr ∈ r.pairs, 0 < eucDist q pr.1 :=
      fun pr hpr => hav pr (List.mem_append.mpr (Or.inr hpr))
    rw [searchK]
    split
    · exact hpre
    · split
      · exact ihr _ havr (ihl _ havl hpre)
      · exact ihl _ havl (ihr _ havr hpre)

lemma searchK_fix (q : List ℝ) (id0 : Id) :
    ∀ (st : BT), (∀ pr ∈ st.pairs, 0 < eucDist q pr.1) →
    searchK q 1 st [((0 : ℝ), id0)] = [(0, id0)] := by
  intro st
  induction st with
  | leaf ps ids c r =>
    intro hav
    rw [searchK]
    split
    · rfl
    · exact foldPush_onTarget q id0 (ps.zip ids) (fun pr hpr => hav pr hpr)
  | node l r c rad ihl ihr =>
    intro hav
    have havl : ∀ pr ∈ l.pairs, 0 < eucDist q pr.1 :=
      fun pr hpr => hav pr (List.mem_append.mpr (Or.inl hpr))
    have havr : ∀ pr ∈ r.pairs, 0 < eucDist q pr.1 :=
      fun pr hpr => hav pr (List.mem_append.mpr (Or.inr hpr))
    rw [searchK]
    split
    · rfl
    · split
      · rw [ihl havl]
        exact ihr havr
      · rw [ihr havr]
        exact ihl havl

lemma prune_neg {q c0 : List ℝ} {r0 : ℝ} {h : List (ℝ × Id)}
    (hle : eucDist q c0 - r0 ≤ 0)
    (hpre : h = [] ∨ ∃ d s, h = [(d, s)] ∧ d < 0) :
    ¬ (h.length = 1 ∧ eucDist q c0 - r0 > -(heapMin h).1) := by
  rintro ⟨hlen, hgt⟩
  rcases hpre with rfl | ⟨d, s, rfl, hd⟩
  · simp at hlen
  · have hm : heapMin [(d, s)] = (d, s) := rfl
    rw [hm] at hgt
    dsimp only at hgt
    linarith

lemma searchK_main (q : List ℝ) (id0 : Id) (D : ℕ) :
    ∀ (st : BT) (h : List (ℝ × Id)),
    st.ballInv → st.dimOK D → q.length = D →
    (q, id0) ∈ st.pairs →
    st.pairs.countP (fun pr => decide (pr.1 = q)) = 1 →
    (h = [] ∨ ∃ d s, h = [(d, s)] ∧ d < 0) →
    searchK q 1 st h = [(0, id0)] := by
  intro st
  induction st with
  | leaf ps ids c r =>
    intro h hinv hdim hq hmem hcount hpre
    have hle : eucDist q c ≤ r := ballInv_points hinv q (mem_pairs_points hmem)
    rw [searchK]
    simp only [BT.centroid, BT.radius]
    rw [if_neg (prune_neg (sub_nonpos.mpr hle) hpre)]
    obtain ⟨L1, L2, hsplit⟩ := List.append_of_mem hmem
    have hzipeq : ps.zip ids = L1 ++ (q, id0) :: L2 := hsplit
    have hc1 : (L1 ++ (q, id0) :: L2).countP
        (fun pr => decide (pr.1 = q)) = 1 := by
      rw [← hzipeq]
      exact hcount
    rw [List.countP_append, List.countP_cons] at hc1
    simp at hc1
    have hL1z : L1.countP (fun pr => decide (pr.1 = q)) = 0 := by omega
    have hL2z : L2.countP (fun pr => decide (pr.1 = q)) = 0 := by omega
    have hmemlen : ∀ pr ∈ ps.zip ids, pr.1 ≠ q → 0 < eucDist q pr.1 := by
      intro pr hpr hne
      have hlen : pr.1.length = D :=
        hdim.2.2.1 pr.1 (List.of_mem_zip hpr).1
      exact eucDist_pos_of_ne (by rw [hq, hlen]) (fun hqe => hne hqe.symm)
    have hL1 : ∀ pr ∈ L1, 0 < eucDist q pr.1 := by
      intro pr hpr
      refine hmemlen pr (by rw [hzipeq]; exact List.mem_append.mpr (Or.inl hpr)) ?_
      have := List.countP_eq_zero.mp hL1z pr hpr
      simpa using this
    have hL2 : ∀ pr ∈ L2, 0 < eucDist q pr.1 := by
      intro pr hpr
      refine hmemlen pr (by
        rw [hzipeq]
        exact List.mem_append.mpr (Or.inr (List.mem_cons_of_mem _ hpr))) ?_
      have := List.countP_eq_zero.mp hL2z pr hpr
      simpa using this
    show (ps.zip ids).foldl
      (fun h pr => pushItem 1 h (-(eucDist q pr.1), pr.2)) h = [(0, id0)]
    rw [hzipeq]
    exact foldPush_target q id0 L1 L2 h hL1 hL2 hpre
  | node l r c rad ihl ihr =>
    intro h hinv hdim hq hmem hcount hpre
    have hle : eucDist q c ≤ rad := ballInv_points hinv q (mem_pairs_points hmem)
    have hlinv := hinv.2.1
    have hrinv := hinv.2.2
    have hld := hdim.1
    have hrd := hdim.2.1
    rw [searchK]
    simp only [BT.centroid, BT.radius]
    rw [if_neg (prune_neg (sub_nonpos.mpr hle) hpre)]
    have hcsplit : l.pairs.countP (fun pr => decide (pr.1 = q)) +
        r.pairs.countP (fun pr => decide (pr.1 = q)) = 1 := by
      have hc : (BT.node l r c rad).pairs.countP
          (fun pr => decide (pr.1 = q)) = 1 := hcount
      simpa [BT.pairs, List.countP_append] using hc
    rcases List.mem_append.mp hmem with hml | hmr
    · have hlpos : 0 < l.pairs.countP (fun pr => decide (pr.1 = q)) :=
        List.countP_pos_iff.mpr ⟨(q, id0), hml, by simp⟩
      have hl1 : l.pairs.countP (fun pr => decide (pr.1 = q)) = 1 := by omega
      have hr0 : r.pairs.countP (fun pr => decide (pr.1 = q)) = 0 := by omega
      have havr : ∀ pr ∈ r.pairs, 0 < eucDist q pr.1 := by
        intro pr hpr
        have hne : ¬ pr.1 = q := by
          simpa using List.countP_eq_zero.mp hr0 pr hpr
        have hlen : pr.1.length = D :=
          dimOK_points_len hrd pr.1 (mem_pairs_points hpr)
        exact eucDist_pos_of_ne (by rw [hq, hlen]) (fun hqe => hne hqe.symm)
      split
      · rw [ihl _ hlinv hld hq hml hl1 hpre]
        exact searchK_fix q id0 r havr
      · exact ihl _ hlinv hld hq hml hl1 (searchK_avoid q r _ havr hpre)
    · have hrpos : 0 < r.pairs.countP (fun pr => decide (pr.1 = q)) :=
        List.countP_pos_iff.mpr ⟨(q, id0), hmr, by simp⟩
      have hr1 : r.pairs.countP (fun pr => decide (pr.1 = q)) = 1 := by omega
      have hl0 : l.pairs.countP (fun pr => decide (pr.1 = q)) = 0 := by omega
      have havl : ∀ pr ∈ l.pairs, 0 < eucDist q pr.1 := by
        intro pr hpr
        have hne : ¬ pr.1 = q := by
          simpa using List.countP_eq_zero.mp hl0 pr hpr
        have hlen : pr.1.length = D :=
          dimOK_points_len hld pr.1 (mem_pairs_points hpr)
        exact eucDist_pos_of_ne (by rw [hq, hlen]) (fun hqe => hne hqe.symm)
      split
      · exact ihr _ hrinv hrd hq hmr hr1 (searchK_avoid q l _ havl hpre)
      · rw [ihr _ hrinv hrd hq hmr hr1 hpre]
        exact searchK_fix q id0 l havl

lemma argsort_take_one {ds : List ℝ} {j : ℕ} (hj : j < ds.length)
    (hmin : ∀ i < ds.length, i ≠ j → ds.getD j 0 < ds.getD i 0) :
    (argsort ds).take 1 = [j] := by
  haveI hT : IsTotal ℕ (fun i j' : ℕ => ds.getD i 0 ≤ ds.getD j' 0) :=
    ⟨fun a b => le_total _ _⟩
  haveI hTr : IsTrans ℕ (fun i j' : ℕ => ds.getD i 0 ≤ ds.getD j' 0) :=
    ⟨fun a b c hab hbc => le_trans hab hbc⟩
  have hperm : (argsort ds).Perm (List.range ds.length) :=
    List.perm_insertionSort _ _
  have hsorted : (argsort ds).Sorted (fun i j' : ℕ => ds.getD i 0 ≤ ds.getD j' 0) :=
    List.sorted_insertionSort _ _
  have hjmem : j ∈ argsort ds :=
    hperm.mem_iff.mpr (List.mem_range.mpr hj)
  cases harg : argsort ds with
  | nil => rw [harg] at hjmem; cases hjmem
  | cons x rest =>
    rw [harg] at hsorted hjmem hperm
    have hx : x = j := by
      by_contra hne
      have hxrange : x ∈ List.range ds.length :=
        hperm.mem_iff.mp (List.mem_cons_self _ _)
      have hxlt : x < ds.length := List.mem_range.mp hxrange
      have hjin : j ∈ rest := by
        rcases List.mem_cons.mp hjmem with h | h
        · exact absurd h.symm hne
        · exact h
      have hle : ds.getD x 0 ≤ ds.getD j 0 :=
        (List.sorted_cons.mp hsorted).1 j hjin
      have hgt := hmin x hxlt hne
      linarith
    rw [hx]
    rfl

lemma linear_search_after_add {D : ℕ} (s : LinearIndex) (v : List ℝ) (id : Id)
    (hD : 1 ≤ D) (hv : v.length = D) (hall : ∀ p ∈ s.vectors, p.length = D)
    (hfresh : v ∉ s.vectors) (hids : s.ids.length = s.vectors.length) :
    (s.add_vector v id).search v 1 = [(id, 0)] := by
  have hvne : v ≠ [] := by
    intro h
    rw [h] at hv
    simp at hv
    omega
  rw [LinearIndex.add_vector, if_neg (by simpa using hvne)]
  rw [LinearIndex.search]
  rw [if_neg (by simp), if_neg (by simpa using hvne), if_neg ?hdim]
  case hdim =>
    have hhead : (s.vectors ++ [v]).headI.length = D := by
      cases hsv : s.vectors with
      | nil => simpa using hv
      | cons p ps =>
        have : p ∈ s.vectors := by rw [hsv]; exact List.mem_cons_self _ _
        simpa using hall p this
    rw [hv, hhead]
    simp
  have hmap : (s.vectors ++ [v]).map (fun p => eucDist p v) =
      s.vectors.map (fun p => eucDist p v) ++ [eucDist v v] := by simp
  set ds := (s.vectors ++ [v]).map (fun p => eucDist p v) with hds
  set n := s.vectors.length with hn
  have hdslen : ds.length = n + 1 := by simp [hds]
  have hdj : ds.getD n 0 = 0 := by
    rw [hmap, List.getD_append_right _ _ _ _ (by simp)]
    simp [eucDist_self]
  have hdi : ∀ i, i < n → 0 < ds.getD i 0 := by
    intro i hi
    rw [hmap, List.getD_append _ _ _ _ (by simpa using hi),
      List.getD_eq_getElem _ _ (by simpa using hi), List.getElem_map]
    refine eucDist_pos_of_ne ?_ ?_
    · rw [hv, hall _ (List.getElem_mem _)]
    · intro he
      exact hfresh (he ▸ List.getElem_mem _)
  have htake : (argsort ds).take 1 = [n] := by
    refine argsort_take_one (by omega) ?_
    intro i hilt hine
    rw [hdj]
    have hin : i < n := by omega
    exact hdi i hin
  have hmin1 : min 1 ds.length = 1 := by omega
  dsimp only
  rw [hmin1, htake]
  have hidn : (s.ids ++ [id]).getD n "" = id := by
    rw [List.getD_append_right _ _ _ _ (by omega)]
    simp [hids]
  simp only [List.map_cons, List.map_nil]
  rw [hidn, hdj]

lemma singleton_sort (x : Id × ℝ) :
    List.insertionSort (fun a b : Id × ℝ => a.2 ≤ b.2) [x] = [x] := rfl

lemma ball_search_after_add {D : ℕ} (s : BallTree) (v : List ℝ) (id : Id)
    (hlsz : 1 ≤ s.leaf_size) (hD : 1 ≤ D) (hv : v.length = D)
    (hgood : s.goodFor D v) :
    (s.add_vector v id).search v 1 = [(id, 0)] := by
  have hvne : v ≠ [] := by
    intro h
    rw [h] at hv
    simp at hv
    omega
  have hvall : ∀ p ∈ [v], p.length = D := by
    intro p hp
    rw [List.mem_singleton.mp hp]
    exact hv
  rw [BallTree.add_vector, if_neg (by simpa using hvne)]
  cases hroot : s.root with
  | none =>
    have hb : buildT s.leaf_size [v] [id] = some (mkLeaf [v] [id]) := by
      rw [buildT, if_neg (by simp), dif_pos (Or.inr (by simp))]
    rw [BallTree.search]
    rw [if_neg (by simp)]
    dsimp only
    rw [hb]
    dsimp only
    have hcen : (mkLeaf [v] [id]).centroid.length = D := by
      rw [mkLeaf_centroid]
      exact mean_length hvall (by simp)
    rw [if_neg (by rw [hv, hcen]; simp)]
    have hks := searchK_main v id D (mkLeaf [v] [id]) []
      (mkLeaf_ballInv _ _)
      (mkLeaf_dimOK (by simp) (by simp) hvall)
      hv
      (by rw [mkLeaf_pairs]; simp)
      (by rw [mkLeaf_pairs]; simp)
      (Or.inl rfl)
    rw [hks]
    simp only [List.map_cons, List.map_nil]
    exact singleton_sort _
  | some t =>
    unfold BallTree.goodFor at hgood
    rw [hroot] at hgood
    obtain ⟨hinv, hdim, hfresh⟩ := hgood
    have hinv' := insertT_ballInv hlsz hinv hdim hv id
    have hdim' := insertT_dimOK hlsz hdim hv id
    have hperm := insertT_pairs_perm (D := D) s.leaf_size hdim v id
    have hmem : (v, id) ∈ (insertT s.leaf_size t v id).pairs :=
      hperm.mem_iff.mpr (List.mem_append.mpr (Or.inr (List.mem_singleton.mpr rfl)))
    have hcount : (insertT s.leaf_size t v id).pairs.countP
        (fun pr => decide (pr.1 = v)) = 1 := by
      rw [hperm.countP_eq, List.countP_append]
      have h0 : t.pairs.countP (fun pr => decide (pr.1 = v)) = 0 :=
        List.countP_eq_zero.mpr (fun pr hpr => by simpa using hfresh pr hpr)
      rw [h0]
      simp
    rw [BallTree.search]
    rw [if_neg (by simp)]
    dsimp only
    rw [if_neg ?hdimchk]
    case hdimchk =>
      rw [hv, dimOK_centroid hdim']
      simp
    have hks := searchK_main v id D (insertT s.leaf_size t v id) []
      hinv' hdim' hv hmem hcount (Or.inl rfl)
    rw [hks]
    simp only [List.map_cons, List.map_nil]
    exact singleton_sort _

lemma eucDist_single (a b : ℝ) : eucDist [a] [b] = |a - b| := by
  rw [eucDist]
  have h : sqDist [a] [b] = (a - b) ^ 2 := by
    simp [sqDist]
  rw [h, Real.sqrt_sq_eq_abs]

lemma searchK_two_leaf (q p1 p2 : List ℝ) (a b : Id) (c : List ℝ) (r : ℝ) :
    searchK q 2 (BT.leaf [p1, p2] [a, b] c r) [] =
      [(-(eucDist q p1), a), (-(eucDist q p2), b)] := by
  rw [searchK, if_neg (by simp)]
  show ([p1, p2].zip [a, b]).foldl
    (fun h pr => pushItem 2 h (-(eucDist q pr.1), pr.2)) [] = _
  rw [show [p1, p2].zip [a, b] = [(p1, a), (p2, b)] from rfl]
  have hp1 : pushItem 2 [] (-(eucDist q p1), a) = [(-(eucDist q p1), a)] := by
    rw [pushItem, if_pos (by simp)]
    simp
  rw [List.foldl_cons, List.foldl_cons, List.foldl_nil, hp1]
  rw [pushItem, if_pos (by simp)]
  rfl

lemma ball_example_eval :
    BallTree.search (BallTree.init [[0], [3]] ["a", "b"]) [0] 2 =
      [("b", -3), ("a", 0)] := by
  have hbuild : buildT 20 [[0], [3]] ["a", "b"] =
      some (mkLeaf [[0], [3]] ["a", "b"]) := by
    rw [buildT, if_neg (by simp), dif_pos (Or.inl (by simp))]
  have h00 : eucDist [(0 : ℝ)] [0] = 0 := eucDist_self _
  have h03 : eucDist [(0 : ℝ)] [3] = 3 := by
    rw [eucDist_single]
    norm_num
  have hcen : (mkLeaf [[0], [3]] ["a", "b"]).centroid.length = 1 := by
    rw [mkLeaf_centroid]
    refine mean_length ?_ (by simp)
    intro p hp
    rcases List.mem_cons.mp hp with h | h
    · rw [h]; rfl
    · rw [List.mem_singleton.mp h]; rfl
  rw [BallTree.init, BallTree.search]
  rw [if_neg (by simp)]
  dsimp only
  rw [hbuild]
  dsimp only
  rw [if_neg (by rw [hcen]; simp)]
  rw [show mkLeaf [[(0 : ℝ)], [3]] ["a", "b"] =
    BT.leaf [[0], [3]] ["a", "b"] (mean [[0], [3]])
      (radiusOf [[0], [3]] (mean [[0], [3]])) from rfl]
  rw [searchK_two_leaf, h00, h03]
  simp only [List.map_cons, List.map_nil, neg_zero]
  norm_num [List.insertionSort, List.orderedInsert]

lemma linear_example_eval :
    LinearIndex.search ⟨[[0], [3]], ["a", "b"]⟩ [0] 2 = [("a", 0), ("b", 3)] := by
  have h00 : eucDist [(0 : ℝ)] [0] = 0 := eucDist_self _
  have h30 : eucDist [(3 : ℝ)] [0] = 3 := by
    rw [eucDist_single]
    norm_num
  rw [LinearIndex.search]
  rw [if_neg (by simp), if_neg (by simp), if_neg (by simp)]
  dsimp only
  rw [show ([[(0 : ℝ)], [3]].map (fun v => eucDist v [0])) =
    [eucDist [0] [0], eucDist [3] [0]] from rfl]
  rw [h00, h30]
  have hargs : argsort [(0 : ℝ), 3] = [0, 1] := by
    norm_num [argsort, List.insertionSort, List.orderedInsert]
  rw [hargs]
  norm_num

/-- C1: the claim says every index supports Delete(id) and the IndexManager
exposes DeleteVector.  In the code no index class defines any delete method,
IndexBuilder defines no delete_vector, and calling the missing attribute
raises AttributeError, so vectors are never removed from any index. -/
theorem c1_no_delete_operation :
    ("delete_vector" ∉ IndexBuilder.methodNames) ∧
    ("delete" ∉ LinearIndex.methodNames ∧ "Delete" ∉ LinearIndex.methodNames) ∧
    ("delete" ∉ BallTree.methodNames ∧ "Delete" ∉ BallTree.methodNames) ∧
    ("delete" ∉ KDTreeIndex.methodNames ∧ "Delete" ∉ KDTreeIndex.methodNames) ∧
    (∀ (b : IndexBuilder) (id : Id),
      IndexBuilder.delete_vector b id = .error .attributeError) :=
  ⟨by decide, ⟨by decide, by decide⟩, ⟨by decide, by decide⟩,
    ⟨by decide, by decide⟩, fun _ _ => rfl⟩

/-- C2: the claim says that after DELETE /libraries succeeds with 204, no
search returns a chunk of that library.  In the code the route never
succeeds on an existing library: the router unpacks the Library model (eight
fields) into three names, raising ValueError, so the response is a 500 and
the index manager is left untouched. -/
theorem c2_delete_library_route_500 (st : AppState) (lid : Id) (lib : Library)
    (hfind : st.libraries.find? (fun l => l.id == lid) = some lib) :
    (delete_library_route st lid).1 = .serverError .valueError ∧
    (delete_library_route st lid).2.builder = st.builder := by
  unfold delete_library_route LibraryService.delete_library
  rw [hfind]
  exact ⟨rfl, rfl⟩

/-- Witness for C2 on a one-library state. -/
theorem c2_delete_library_route_500_witness :
    (delete_library_route
      ⟨[⟨"t", "t", "L", "w", "d", "2024", "lib1", none⟩], [], [], ⟨[]⟩⟩
      "lib1").1 = .serverError .valueError ∧
    (delete_library_route
      ⟨[⟨"t", "t", "L", "w", "d", "2024", "lib1", none⟩], [], [], ⟨[]⟩⟩
      "lib1").2.builder = (⟨[]⟩ : IndexBuilder) :=
  c2_delete_library_route_500 _ _ ⟨"t", "t", "L", "w", "d", "2024", "lib1", none⟩ rfl

/-- C3: the claim says both searches return nonnegative Euclidean distances
sorted ascending.  BallTree.search returns the negated heap keys sorted
ascending by the negated value: on points 0 and 3 with query 0 it returns
the farther point first with distance -3. -/
theorem c3_ball_search_negated :
    BallTree.search (BallTree.init [[0], [3]] ["a", "b"]) [0] 2 =
      [("b", -3), ("a", 0)] ∧ ¬ ((0 : ℝ) ≤ -3) :=
  ⟨ball_example_eval, by norm_num⟩

/-- C4: the claim says BallTree and LinearIndex agree element-wise by id
modulo distance ties.  On points 0 and 3 with query 0 and k = 2 the linear
index returns a first, distance 0, then b, distance 3, while the ball tree
returns b first with distance -3; the distances 0 and 3 are not tied. -/
theorem c4_ball_linear_disagree :
    LinearIndex.search ⟨[[0], [3]], ["a", "b"]⟩ [0] 2 = [("a", 0), ("b", 3)] ∧
    BallTree.search (BallTree.init [[0], [3]] ["a", "b"]) [0] 2 =
      [("b", -3), ("a", 0)] ∧
    ("a" : Id) ≠ "b" ∧ (0 : ℝ) ≠ 3 :=
  ⟨linear_example_eval, ball_example_eval, by decide, by norm_num⟩

/-- C5 counterexample: the claim says an input of the wrong dimension leaves
the index unchanged, but add_vector has no dimension check: adding the
1-dimensional vector 5 to an index of 2-dimensional vectors stores it. -/
theorem c5_counterexample :
    (LinearIndex.add_vector ⟨[[1, 2]], ["a"]⟩ [5] "b").vectors =
      [[1, 2], [5]] ∧ ([(5 : ℝ)].length ≠ [(1 : ℝ), 2].length) := by
  constructor
  · rw [LinearIndex.add_vector, if_neg (by simp)]
    rfl
  · simp

/-- C5 amended: Search returns the empty list on a query-dimension mismatch
and leaves the index unchanged (search never mutates), but Add performs no
dimension check at all: any nonempty vector is appended regardless of its
length, for both LinearIndex and BallTree. -/
theorem c5_amended :
    (∀ (s : LinearIndex) (q : List ℝ) (k : ℕ), s.vectors ≠ [] → q ≠ [] →
      q.length ≠ s.vectors.headI.length → s.search q k = []) ∧
    (∀ (s : LinearIndex) (v : List ℝ) (id : Id), v ≠ [] →
      s.add_vector v id = ⟨s.vectors ++ [v], s.ids ++ [id]⟩) ∧
    (∀ (s : BallTree) (q : List ℝ) (k : ℕ) (t : BT), s.root = some t →
      s.vectors ≠ [] → q.length ≠ t.centroid.length → s.search q k = []) ∧
    (∀ (s : BallTree) (v : List ℝ) (id : Id), v ≠ [] →
      (s.add_vector v id).vectors = s.vectors ++ [v]) := by
  refine ⟨?_, ?_, ?_, ?_⟩
  · intro s q k h1 h2 h3
    rw [LinearIndex.search, if_neg (by simpa using h1),
      if_neg (by simpa using h2), if_pos h3]
  · intro s v id h
    rw [LinearIndex.add_vector, if_neg (by simpa using h)]
  · intro s q k t hroot h1 h3
    rw [BallTree.search, if_neg (by simpa using h1)]
    rw [hroot]
    dsimp only
    rw [if_pos h3]
  · intro s v id h
    rw [BallTree.add_vector, if_neg (by simpa using h)]
    cases s.root <;> rfl

/-- Witness for C5 amended on concrete one- and two-dimensional inputs. -/
theorem c5_amended_witness :
    LinearIndex.search ⟨[[1, 2]], ["a"]⟩ [9] 3 = [] ∧
    LinearIndex.add_vector ⟨[[1, 2]], ["a"]⟩ [5] "b" =
      ⟨[[1, 2], [5]], ["a", "b"]⟩ ∧
    BallTree.search ⟨20, [[1]], ["a"], some (mkLeaf [[1]] ["a"])⟩ [1, 2] 5 = [] ∧
    (BallTree.add_vector ⟨20, [[1]], ["a"], some (mkLeaf [[1]] ["a"])⟩
      [5] "b").vectors = [[1], [5]] := by
  refine ⟨?_, ?_, ?_, ?_⟩
  · exact c5_amended.1 ⟨[[1, 2]], ["a"]⟩ [9] 3 (by simp) (by simp) (by simp)
  · exact c5_amended.2.1 ⟨[[1, 2]], ["a"]⟩ [5] "b" (by simp)
  · exact c5_amended.2.2.1 _ [1, 2] 5 (mkLeaf [[1]] ["a"]) rfl (by simp)
      (by simp [mkLeaf_centroid, mean, vsum])
  · exact c5_amended.2.2.2 _ [5] "b" (by simp)

/-- C6 counterexample: the claim says re-adding an existing id replaces the
stored vector so that at most one entry per id remains; add_vector always
appends, so re-adding id a yields two entries with id a. -/
theorem c6_counterexample :
    (LinearIndex.add_vector ⟨[[1]], ["a"]⟩ [1] "a").ids = ["a", "a"] ∧
    (["a", "a"].count "a" = 2) := by
  constructor
  · rw [LinearIndex.add_vector, if_neg (by simp)]
    rfl
  · decide

/-- C6 amended: Add never replaces: for both indexes re-adding any id grows
the number of stored entries under that id by exactly one, and a ball-tree
insert appends its entry to the stored pair multiset. -/
theorem c6_amended :
    (∀ (s : LinearIndex) (v : List ℝ) (id : Id), v ≠ [] →
      (s.add_vector v id).ids.count id = s.ids.count id + 1) ∧
    (∀ (s : BallTree) (v : List ℝ) (id : Id), v ≠ [] →
      (s.add_vector v id).ids.count id = s.ids.count id + 1) ∧
    (∀ (lsz D : ℕ) (t : BT) (v : List ℝ) (id : Id), t.dimOK D →
      (insertT lsz t v id).pairs.Perm (t.pairs ++ [(v, id)])) := by
  refine ⟨?_, ?_, ?_⟩
  · intro s v id h
    rw [LinearIndex.add_vector, if_neg (by simpa using h)]
    simp
  · intro s v id h
    rw [BallTree.add_vector, if_neg (by simpa using h)]
    cases s.root <;> simp
  · intro lsz D t v id hdim
    exact insertT_pairs_perm lsz hdim v id

/-- Witness for C6 amended. -/
theorem c6_amended_witness :
    (LinearIndex.add_vector ⟨[[1]], ["a"]⟩ [1] "a").ids.count "a" =
      ["a"].count "a" + 1 ∧
    (BallTree.add_vector ⟨20, [], [], none⟩ [2] "x").ids.count "x" =
      ([] : List Id).count "x" + 1 ∧
    (insertT 20 (mkLeaf [[1]] ["a"]) [2] "b").pairs.Perm
      ((mkLeaf [[1]] ["a"]).pairs ++ [([2], "b")]) := by
  refine ⟨?_, ?_, ?_⟩
  · exact c6_amended.1 ⟨[[1]], ["a"]⟩ [1] "a" (by simp)
  · exact c6_amended.2.1 ⟨20, [], [], none⟩ [2] "x" (by simp)
  · exact c6_amended.2.2 20 1 (mkLeaf [[1]] ["a"]) [2] "b"
      (mkLeaf_dimOK (by simp) (by simp)
        (by intro p hp; rw [List.mem_singleton.mp hp]; rfl))

/-- C7: invariant I4 holds of every node of a batch-built tree, and online
insert (including leaf splits and the midpoint-of-children bound refresh)
preserves it on well-formed trees. -/
theorem c7_ball_invariant :
    (∀ (lsz : ℕ) (ps : List (List ℝ)) (ids : List Id) (t : BT),
      buildT lsz ps ids = some t → t.ballInv) ∧
    (∀ (lsz D : ℕ) (t : BT) (v : List ℝ) (id : Id), 1 ≤ lsz → t.ballInv →
      t.dimOK D → v.length = D → (insertT lsz t v id).ballInv) := by
  constructor
  · intro lsz ps ids t hb
    exact (buildT_sound lsz ps.length ps ids t le_rfl hb).2
  · intro lsz D t v id h1 h2 h3 h4
    exact insertT_ballInv h1 h2 h3 h4 id

/-- Witness for C7 on a concrete build and a concrete insert. -/
theorem c7_ball_invariant_witness :
    (mkLeaf [[(0 : ℝ)], [3]] ["a", "b"]).ballInv ∧
    (insertT 20 (mkLeaf [[(1 : ℝ)]] ["a"]) [4] "c").ballInv := by
  constructor
  · exact c7_ball_invariant.1 20 [[0], [3]] ["a", "b"] _
      (by rw [buildT, if_neg (by simp), dif_pos (Or.inl (by simp))])
  · exact c7_ball_invariant.2 20 1 (mkLeaf [[1]] ["a"]) [4] "c" (by norm_num)
      (mkLeaf_ballInv _ _)
      (mkLeaf_dimOK (by simp) (by simp)
        (by intro p hp; rw [List.mem_singleton.mp hp]; rfl))
      rfl

/-- C8 counterexample: the claim says an unconfigured index name yields the
designated ErrUnknownIndex mapped to HTTP 400; the route instead lets the
dictionary KeyError escape, which FastAPI reports as a 500. -/
theorem c8_counterexample :
    search_chunks_route [] ⟨[("ball_tree", .ball_tree (BallTree.init [] [])),
        ("linear", .linear ⟨[], []⟩)]⟩ (fun _ => []) "q" 10 ["foo"] =
      .serverError (.keyError "foo") ∧
    HttpOutcome.serverError (.keyError "foo") ≠ .badRequest := by
  constructor
  · rfl
  · decide

/-- C8 amended: a search naming an unconfigured index raises an unhandled
KeyError, surfaced as an HTTP 500 server error, not a designated 400. -/
theorem c8_amended (store : List Chunk) (b : IndexBuilder)
    (embed : String → List ℝ) (query : String) (k : ℕ) (ty : String)
    (hl : (b.index.lookup ty : Option IndexVal) = none) :
    search_chunks_route store b embed query k [ty] =
      .serverError (.keyError ty) := by
  have h1 : IndexBuilder.search_index store b embed query k ty =
      .error (.keyError ty) := by
    unfold IndexBuilder.search_index
    rw [hl]
  unfold search_chunks_route search_chunks
  simp only [List.foldlM_cons, List.foldlM_nil, h1]
  rfl

/-- Witness for C8 amended. -/
theorem c8_amended_witness :
    search_chunks_route [] ⟨[]⟩ (fun _ => []) "q" 1 ["nope"] =
      .serverError (.keyError "nope") :=
  c8_amended [] ⟨[]⟩ (fun _ => []) "q" 1 "nope" rfl

/-- C9 counterexample: the claim says Search(v, 1) after Add(v, id) returns
exactly (id, 0) for every index state.  On the LinearIndex holding vector 0
under id a, re-adding the same vector under id b produces the tied distance
list [0, 0], whose argsort is [0, 1], so this search returns the old id a,
not the added id b.  (This refutes only the universally quantified claim at
this concrete state; which id wins a distance tie in general is
index-specific and is not asserted.) -/
theorem c9_counterexample :
    LinearIndex.search (LinearIndex.add_vector ⟨[[0]], ["a"]⟩ [0] "b") [0] 1 =
      [("a", 0)] ∧ ("a" : Id) ≠ "b" := by
  constructor
  · rw [LinearIndex.add_vector, if_neg (by simp)]
    rw [LinearIndex.search, if_neg (by simp), if_neg (by simp),
      if_neg (by simp)]
    dsimp only
    have hmaps : List.map (fun v => eucDist v [0]) ([[(0 : ℝ)]] ++ [[0]]) =
        [eucDist [0] [0], eucDist [0] [0]] := rfl
    rw [hmaps]
    rw [eucDist_self]
    have hargs : argsort [(0 : ℝ), 0] = [0, 1] := by
      norm_num [argsort, List.insertionSort, List.orderedInsert]
    rw [hargs]
    norm_num
  · decide

/-- C9 amended: after Add(v, id), provided no already-stored vector equals v
and dimensions are respected, Search(v, 1) returns exactly (id, 0), for both
LinearIndex and BallTree states satisfying their invariants. -/
theorem c9_amended :
    (∀ (D : ℕ) (s : LinearIndex) (v : List ℝ) (id : Id), 1 ≤ D →
      v.length = D → (∀ p ∈ s.vectors, p.length = D) → v ∉ s.vectors →
      s.ids.length = s.vectors.length →
      (s.add_vector v id).search v 1 = [(id, 0)]) ∧
    (∀ (D : ℕ) (s : BallTree) (v : List ℝ) (id : Id), 1 ≤ s.leaf_size →
      1 ≤ D → v.length = D → s.goodFor D v →
      (s.add_vector v id).search v 1 = [(id, 0)]) := by
  constructor
  · intro D s v id h1 h2 h3 h4 h5
    exact linear_search_after_add s v id h1 h2 h3 h4 h5
  · intro D s v id h1 h2 h3 h4
    exact ball_search_after_add s v id h1 h2 h3 h4

/-- Witness for C9 amended on fresh inserts. -/
theorem c9_amended_witness :
    LinearIndex.search (LinearIndex.add_vector ⟨[[1]], ["a"]⟩ [0] "b") [0] 1 =
      [("b", 0)] ∧
    BallTree.search (BallTree.add_vector (BallTree.init [] []) [7] "c") [7] 1 =
      [("c", 0)] := by
  constructor
  · exact c9_amended.1 1 ⟨[[1]], ["a"]⟩ [0] "b" (by norm_num) rfl
      (by intro p hp; rw [List.mem_singleton.mp hp]; rfl)
      (by norm_num)
      rfl
  · exact c9_amended.2 1 (BallTree.init [] []) [7] "c"
      (by simp [BallTree.init]) (by norm_num) rfl
      (by simp [BallTree.goodFor, BallTree.init, buildT])

end

end StackAI
